import Mathlib

/-
Verification of the PlantAdvisor expert-system core (src/core and
src/knowledge) against its natural-language specification.

Embedding conventions:
  * Python `Any` values that flow through facts, conditions and actions are
    modelled by the inductive type `Valor` (strings, integers, booleans,
    `None`, and lists).  Python `==` between such values is structural
    equality, which matches CPython behaviour on these constructors.
  * Fact ids: the source generates the string `f"F{n:04d}"` from a strictly
    increasing counter `n`; the rendering `n ↦ "F%04d" % n` is injective, so
    facts here carry the numeric counter value `n` as their id.
  * Timestamps come from `datetime.now()`.  Real time is an environmental
    input, so every operation that reads the clock takes the current tick as
    an explicit `Nat` argument (the inference engine threads a monotonically
    increasing tick counter `reloj`, matching the monotonicity of the wall
    clock within a run).
  * Python floats (`confianza`, `prioridad`) are modelled as rationals `ℚ`.
  * `MemoriaTrabajo._hechos` is a dict keyed by fresh ids; it is modelled as
    the list of its values in insertion order.  `_indice_por_predicado`
    maps a predicate to a *set* of ids; a set is modelled as the list of its
    elements in iteration order.  CPython's set iteration order is
    unspecified (hash-based); the model determinises it as insertion order.
    Every conclusion that depends on the order of iteration over that set is
    flagged where it is proved.
  * Python's built-in `max(iterable, key=k)` scans left to right and keeps
    the current maximum, replacing it only on a strictly greater key; hence
    the *first* element attaining the maximal key is returned.  `pyMaxBy`
    below implements exactly that scan.
-/

/-- Scalar Python values appearing in facts, conditions and actions. -/
inductive Atomo where
  | str : String → Atomo
  | int : Int → Atomo
  | bool : Bool → Atomo
  | none : Atomo
deriving DecidableEq

/-- Python `Any` values stored in facts, rule conditions and actions: the
value universe the repository actually uses is scalars and flat lists of
scalars (rule `in`-lists are lists of strings). -/
inductive Valor where
  | atom : Atomo → Valor
  | list : List Atomo → Valor
deriving DecidableEq

def vstr (x : String) : Valor := Valor.atom (Atomo.str x)

def vint (n : Int) : Valor := Valor.atom (Atomo.int n)

def vbool (b : Bool) : Valor := Valor.atom (Atomo.bool b)

def vnone : Valor := Valor.atom Atomo.none

/-- Tests `isinstance(v, list)`. -/
def Valor.isList : Valor → Bool
  | .list _ => true
  | _ => false

/-- Python membership `v in l` for a modelled list `l`.  List elements are
atoms, and in Python a list value never compares equal to a scalar, so a
list-valued `v` is never a member. -/
def Valor.enLista (v : Valor) (l : List Atomo) : Bool :=
  match v with
  | .atom a => l.contains a
  | .list _ => false

/-- Clasificación de hechos (enum `TipoHecho` in sintaxis_reglas.py). -/
inductive TipoHecho where
  | INICIAL
  | DERIVADO
  | CONCLUSION
deriving DecidableEq

/-- Operadores de condiciones (enum `OperadorCondicion`). -/
inductive OperadorCondicion where
  | IGUAL
  | DIFERENTE
  | MENOR
  | MENOR_IGUAL
  | MAYOR
  | MAYOR_IGUAL
  | CONTIENE
  | EN
  | NO_EN
  | EXISTE
  | NO_EXISTE
  | COINCIDE_PATRON
deriving DecidableEq

/-- Tipos de acciones (enum `TipoAccion`). -/
inductive TipoAccion where
  | ASSERT
  | RETRACT
  | MODIFY
  | CONCLUDE
  | CALL_FUNCTION
  | SET_VARIABLE
  | INCREMENT
  | RECOMMEND
deriving DecidableEq

/-- Dataclass `CondicionRegla` of sintaxis_reglas.py. -/
structure CondicionRegla where
  predicado : String
  operador : OperadorCondicion
  valor : Valor
  var : Option String := Option.none
  peso : ℚ := 1
  explicacion : String := ""
deriving DecidableEq

/-- Dataclass `AccionRegla` of sintaxis_reglas.py.  The `parametros` dict is
kept as an association list. -/
structure AccionRegla where
  tipo : TipoAccion
  predicado : String
  valor : Valor := vnone
  parametros : List (String × Valor) := []
  confianza : ℚ := 1
  explicacion : String := ""
deriving DecidableEq

/-- Dataclass `ReglaProduccionAcademica`.  `especificidad` and `complejidad`
are stored explicitly; `mkRegla` below reproduces the `__post_init__`
defaulting. -/
structure ReglaProduccionAcademica where
  id : String
  nombre : String
  condiciones : List CondicionRegla
  acciones : List AccionRegla
  prioridad : ℚ := 0
  especificidad : Nat
  complejidad : Nat
  descripcion : String := ""
  dominio : String := ""
  fuente_conocimiento : String := ""
deriving DecidableEq

/-- The `__post_init__` defaulting of `ReglaProduccionAcademica`: when not
given, `especificidad := len(condiciones)` and
`complejidad := len(condiciones) + len(acciones)`. -/
def mkRegla (id nombre : String) (condiciones : List CondicionRegla)
    (acciones : List AccionRegla) (prioridad : ℚ) : ReglaProduccionAcademica :=
  { id := id, nombre := nombre, condiciones := condiciones, acciones := acciones,
    prioridad := prioridad, especificidad := condiciones.length,
    complejidad := condiciones.length + acciones.length }

/-- Dataclass `Hecho` of memoria_trabajo.py (id is the numeric counter value
behind the rendered string id, timestamp the clock tick at creation). -/
structure Hecho where
  id : Nat
  predicado : String
  valor : Valor
  tipo : TipoHecho
  origen : Option String := Option.none
  timestamp : Nat
  justificacion : String := ""
  confianza : ℚ := 1
deriving DecidableEq

/-- State of `MemoriaTrabajo`: the `_hechos` dict as its values in insertion
order, the per-predicate id index (each id set as a list in iteration order,
determinised as insertion order), and the id counter. -/
structure MemoriaTrabajo where
  hechos : List Hecho
  indicePorPredicado : List (String × List Nat)
  contadorHechos : Nat
deriving DecidableEq

/-- Fresh `MemoriaTrabajo` as built by `__init__` (the by-type index carries
no information used by the verified operations and is omitted). -/
def MemoriaTrabajo.init : MemoriaTrabajo :=
  { hechos := [], indicePorPredicado := [], contadorHechos := 0 }

/-- Association-list lookup, modelling Python `dict.get`. -/
def dictGet {α : Type} (l : List (String × α)) (k : String) : Option α :=
  (l.find? (fun p => p.1 == k)).map Prod.snd

/-- Association-list assignment `d[k] = v`, modelling Python dict update:
replaces the value at an existing key, otherwise appends the new entry. -/
def dictSet {α : Type} (l : List (String × α)) (k : String) (v : α) :
    List (String × α) :=
  match l with
  | [] => [(k, v)]
  | p :: rest => if p.1 == k then (k, v) :: rest else p :: dictSet rest k v

/-- `self._indice_por_predicado.setdefault(pred, set()).add(id)`: append the
fresh id to the predicate's id list (insertion-order model of set `add`). -/
def indiceAgregar (l : List (String × List Nat)) (pred : String) (hid : Nat) :
    List (String × List Nat) :=
  match l with
  | [] => [(pred, [hid])]
  | p :: rest =>
      if p.1 == pred then (p.1, p.2 ++ [hid]) :: rest
      else p :: indiceAgregar rest pred hid

/-- `MemoriaTrabajo.assert_hecho`: generates the next id, builds the fact and
stores it in the dict and the predicate index.  Returns the new id and the
updated memory.  `ts` is the `datetime.now()` reading at creation. -/
def assert_hecho (m : MemoriaTrabajo) (predicado : String) (valor : Valor)
    (tipo : TipoHecho) (origen : Option String) (justificacion : String)
    (confianza : ℚ) (ts : Nat) : Nat × MemoriaTrabajo :=
  let hechoId := m.contadorHechos + 1
  let hecho : Hecho :=
    { id := hechoId, predicado := predicado, valor := valor, tipo := tipo,
      origen := origen, timestamp := ts, justificacion := justificacion,
      confianza := confianza }
  (hechoId,
    { hechos := m.hechos ++ [hecho],
      indicePorPredicado := indiceAgregar m.indicePorPredicado predicado hechoId,
      contadorHechos := hechoId })

/-- Python `max(x :: xs, key)`: left-to-right scan replacing the current
maximum only on a strictly greater key, so the first element attaining the
maximal key is kept. -/
def pyMaxBy {α β : Type} [LinearOrder β] (key : α → β) : α → List α → α
  | acc, [] => acc
  | acc, x :: xs => pyMaxBy key (if key acc < key x then x else acc) xs

/-- The facts of predicate `p`, resolved through the index in its iteration
order (`self._hechos[hid] for hid in hechos_ids`).  In every state reachable
by `assert_hecho` each indexed id resolves. -/
def hechosDe (m : MemoriaTrabajo) (predicado : String) : List Hecho :=
  ((dictGet m.indicePorPredicado predicado).getD []).filterMap
    (fun hid => m.hechos.find? (fun h => h.id == hid))

/-- `MemoriaTrabajo.obtener_hecho`: `None` when the predicate has no indexed
fact, otherwise the `max` by timestamp over the predicate's facts. -/
def obtener_hecho (m : MemoriaTrabajo) (predicado : String) : Option Hecho :=
  match hechosDe m predicado with
  | [] => Option.none
  | h :: hs => Option.some (pyMaxBy (fun x => x.timestamp) h hs)

/-- `ParserReglasAcademico._evaluar_condicion`: the truth value of one
condition together with the (possibly extended) bindings dict.  The source
mutates `bindings` only when the result is true and `condicion.variable` is
truthy (Python truthiness: `None` and the empty string are falsy). -/
def evaluar_condicion (m : MemoriaTrabajo) (c : CondicionRegla)
    (bindings : List (String × Valor)) : Bool × List (String × Valor) :=
  let hecho := obtener_hecho m c.predicado
  if c.operador = OperadorCondicion.NO_EXISTE then (hecho.isNone, bindings)
  else if c.operador = OperadorCondicion.EXISTE then (hecho.isSome, bindings)
  else
    match hecho with
    | Option.none => (false, bindings)
    | Option.some h =>
        let resultado :=
          if c.operador = OperadorCondicion.IGUAL then h.valor == c.valor
          else if c.operador = OperadorCondicion.DIFERENTE then !(h.valor == c.valor)
          else if c.operador = OperadorCondicion.EN then
            match c.valor with
            | Valor.list l => h.valor.enLista l
            | _ => false
          else if c.operador = OperadorCondicion.NO_EN then
            match c.valor with
            | Valor.list l => !(h.valor.enLista l)
            | _ => false
          else false
        let bindings' :=
          if resultado then
            match c.var with
            | Option.some v => if v = "" then bindings else dictSet bindings v h.valor
            | Option.none => bindings
          else bindings
        (resultado, bindings')

/-- The condition loop of `ParserReglasAcademico.evaluar_regla`: short-circuits
to `None` on the first failing condition, threading the bindings dict. -/
def evaluarCondiciones (m : MemoriaTrabajo) :
    List CondicionRegla → List (String × Valor) → Option (List (String × Valor))
  | [], b => Option.some b
  | c :: cs, b =>
      let r := evaluar_condicion m c b
      if r.1 then evaluarCondiciones m cs r.2 else Option.none

/-- `ParserReglasAcademico.evaluar_regla`: `Some bindings` when every
condition holds, starting from the empty dict. -/
def evaluar_regla (m : MemoriaTrabajo) (regla : ReglaProduccionAcademica) :
    Option (List (String × Valor)) :=
  evaluarCondiciones m regla.condiciones []

/-- Value resolution at the top of the action loop: a string starting with
the `$` marker is looked up (without the marker) in the bindings, defaulting
to the untouched marker string; every other value passes through. -/
def resolverValorAccion (bindings : List (String × Valor)) (v : Valor) : Valor :=
  match v with
  | Valor.atom (Atomo.str s) =>
      if s.startsWith "$" then (dictGet bindings (s.drop 1)).getD v else v
  | _ => v

/-- The action loop of `ParserReglasAcademico.ejecutar_acciones`: only
ASSERT, CONCLUDE and RECOMMEND reach `assert_hecho` (ASSERT as a DERIVADO
fact, the other two as CONCLUSION), with the firing rule's id as origin and
the action's confidence and explanation; every other action kind falls
through the `if` and is skipped.  Returns the created ids, the updated
memory and the clock. -/
def ejecutarAccionesDesde (reglaId : String) (bindings : List (String × Valor)) :
    List AccionRegla → MemoriaTrabajo → Nat → List Nat × MemoriaTrabajo × Nat
  | [], m, reloj => ([], m, reloj)
  | a :: rest, m, reloj =>
      let valorAccion := resolverValorAccion bindings a.valor
      if a.tipo = TipoAccion.ASSERT ∨ a.tipo = TipoAccion.CONCLUDE ∨
          a.tipo = TipoAccion.RECOMMEND then
        let r := assert_hecho m a.predicado valorAccion
          (if a.tipo = TipoAccion.ASSERT then TipoHecho.DERIVADO else TipoHecho.CONCLUSION)
          (Option.some reglaId) a.explicacion a.confianza reloj
        let resto := ejecutarAccionesDesde reglaId bindings rest r.2 (reloj + 1)
        (r.1 :: resto.1, resto.2)
      else
        ejecutarAccionesDesde reglaId bindings rest m reloj

/-- `ParserReglasAcademico.ejecutar_acciones`. -/
def ejecutar_acciones (m : MemoriaTrabajo) (regla : ReglaProduccionAcademica)
    (bindings : List (String × Valor)) (reloj : Nat) :
    List Nat × MemoriaTrabajo × Nat :=
  ejecutarAccionesDesde regla.id bindings regla.acciones m reloj

/-- Conflict-resolution strategies (enum in agenda.py). -/
inductive EstrategiaConflictResolution where
  | ESPECIFICIDAD
  | RECENCIA
  | PRIORIDAD_EXPLICITA
deriving DecidableEq

/-- Dataclass `ReglaInstanciada` of agenda.py (an activation). -/
structure ReglaInstanciada where
  regla_id : String
  bindings : List (String × Valor)
  hechos_activadores : List Nat
  timestamp_activacion : Nat
  especificidad : Nat := 0
  prioridad_explicita : ℚ := 0
  ya_ejecutada : Bool := false
deriving DecidableEq

/-- State of `Agenda`: activations in insertion order, the strategy, and the
execution history. -/
structure Agenda where
  reglasInstanciadas : List ReglaInstanciada
  estrategia : EstrategiaConflictResolution
  historialEjecucion : List ReglaInstanciada
deriving DecidableEq

/-- Fresh `Agenda` as built by `__init__` (also the effect of
`limpiar_agenda`). -/
def Agenda.init (e : EstrategiaConflictResolution) : Agenda :=
  { reglasInstanciadas := [], estrategia := e, historialEjecucion := [] }

/-- `Agenda.activar_regla`: appends a fresh, unexecuted activation
(`copy.deepcopy` of the bindings is value copying, implicit here); `ts` is
the `datetime.now()` reading of the activation. -/
def activar_regla (a : Agenda) (regla_id : String)
    (bindings : List (String × Valor)) (hechos_activadores : List Nat)
    (especificidad : Nat) (prioridad_explicita : ℚ) (ts : Nat) : Agenda :=
  { a with reglasInstanciadas := a.reglasInstanciadas ++
      [{ regla_id := regla_id, bindings := bindings,
         hechos_activadores := hechos_activadores,
         timestamp_activacion := ts, especificidad := especificidad,
         prioridad_explicita := prioridad_explicita, ya_ejecutada := false }] }

/-- The filter `[r for r in self._reglas_instanciadas if not r.ya_ejecutada]`,
paired with each activation's position (Python keeps object identity; the
position plays that role here). -/
def candidatosDesde (i : Nat) : List ReglaInstanciada → List (Nat × ReglaInstanciada)
  | [] => []
  | r :: rs =>
      if r.ya_ejecutada then candidatosDesde (i + 1) rs
      else (i, r) :: candidatosDesde (i + 1) rs

/-- `Agenda.seleccionar_proxima_regla`, keeping the selected activation's
position: `None` when no unexecuted activation remains, otherwise the `max`
of the candidates under the strategy's key (the key never looks at the
position, so the scan is exactly the source's). -/
def seleccionar_proxima (a : Agenda) : Option (Nat × ReglaInstanciada) :=
  match candidatosDesde 0 a.reglasInstanciadas with
  | [] => Option.none
  | c :: cs =>
      Option.some (match a.estrategia with
        | EstrategiaConflictResolution.ESPECIFICIDAD =>
            pyMaxBy (fun p => p.2.especificidad) c cs
        | EstrategiaConflictResolution.RECENCIA =>
            pyMaxBy (fun p => p.2.timestamp_activacion) c cs
        | EstrategiaConflictResolution.PRIORIDAD_EXPLICITA =>
            pyMaxBy (fun p => p.2.prioridad_explicita) c cs)

/-- The activation returned by `Agenda.seleccionar_proxima_regla`. -/
def seleccionar_proxima_regla (a : Agenda) : Option ReglaInstanciada :=
  (seleccionar_proxima a).map Prod.snd

/-- `Agenda.marcar_como_ejecutada`: Python sets `ya_ejecutada` on the selected
object itself; here the activation at its position is updated, and the updated
activation is appended to the history. -/
def marcar_como_ejecutada (a : Agenda) (i : Nat) : Agenda :=
  match a.reglasInstanciadas.get? i with
  | Option.none => a
  | Option.some r =>
      { a with
        reglasInstanciadas := a.reglasInstanciadas.set i { r with ya_ejecutada := true },
        historialEjecucion := a.historialEjecucion ++ [{ r with ya_ejecutada := true }] }

/-- `Agenda.esta_vacia`. -/
def esta_vacia (a : Agenda) : Bool :=
  a.reglasInstanciadas.all (fun r => r.ya_ejecutada)

/-- The `BaseConocimiento` protocol of motor_inferencia.py, as the record of
its two methods. -/
structure BaseConocimiento where
  obtener_reglas : List ReglaProduccionAcademica
  obtener_regla_por_id : String → Option ReglaProduccionAcademica

/-- Mutable state of `MotorInferenciaAcademico` during `inferir`, plus the
clock tick `reloj` standing for `datetime.now()`. -/
structure EstadoMotor where
  memoria : MemoriaTrabajo
  agenda : Agenda
  razon_terminacion : String
  ciclos_ejecutados : Nat
  reloj : Nat

/-- Termination reason set when `seleccionar_proxima_regla` returns `None`. -/
def razonAgendaVacia : String := "Agenda vacía - no hay más reglas para ejecutar."

/-- Termination reason set after the loop when the cycle count reached the
limit. -/
def razonLimiteCiclos (maxCiclos : Nat) : String :=
  "Límite de ciclos (" ++ toString maxCiclos ++ ") alcanzado."

/-- The MATCH phase over a list of rules: every rule whose evaluation
succeeds activates an instance on the agenda (with empty
`hechos_activadores`, the rule's `especificidad` and `prioridad`), ticking
the clock per activation.  Evaluation reads but never writes the memory. -/
def faseMatchLista (s : EstadoMotor) :
    List ReglaProduccionAcademica → EstadoMotor
  | [] => s
  | regla :: rest =>
      match evaluar_regla s.memoria regla with
      | Option.some bindings =>
          faseMatchLista
            { s with
              agenda := activar_regla s.agenda regla.id bindings []
                regla.especificidad regla.prioridad s.reloj,
              reloj := s.reloj + 1 } rest
      | Option.none => faseMatchLista s rest

/-- FASE MATCH of one inference cycle. -/
def faseMatch (bc : BaseConocimiento) (s : EstadoMotor) : EstadoMotor :=
  faseMatchLista s bc.obtener_reglas

/-- FASE ACT of one inference cycle on the selected activation `ri` at
position `i`: when the rule id resolves, its actions run and the activation
is marked executed; when the lookup fails the state is returned untouched. -/
def faseAct (bc : BaseConocimiento) (i : Nat) (ri : ReglaInstanciada)
    (s : EstadoMotor) : EstadoMotor :=
  match bc.obtener_regla_por_id ri.regla_id with
  | Option.some regla =>
      let r := ejecutar_acciones s.memoria regla ri.bindings s.reloj
      { s with memoria := r.2.1, reloj := r.2.2,
               agenda := marcar_como_ejecutada s.agenda i }
  | Option.none => s

/-- One iteration of the `while` body of `MotorInferenciaAcademico.inferir`:
increment the cycle counter, MATCH, RESOLVE, and either break with the
agenda-empty reason (second component `true`) or ACT and continue. -/
def cicloMotor (bc : BaseConocimiento) (s : EstadoMotor) : EstadoMotor × Bool :=
  let s1 := { s with ciclos_ejecutados := s.ciclos_ejecutados + 1 }
  let s2 := faseMatch bc s1
  match seleccionar_proxima s2.agenda with
  | Option.none => ({ s2 with razon_terminacion := razonAgendaVacia }, true)
  | Option.some (i, ri) => (faseAct bc i ri s2, false)

/-- The `while self.ciclos_ejecutados < self.max_ciclos` loop: the counter
starts at 0 and each iteration increments it by exactly one, so running on
fuel `max_ciclos` is the loop verbatim. -/
def inferirAux (bc : BaseConocimiento) : Nat → EstadoMotor → EstadoMotor
  | 0, s => s
  | fuel + 1, s =>
      let r := cicloMotor bc s
      if r.2 then r.1 else inferirAux bc fuel r.1

/-- `MotorInferenciaAcademico.inferir`: reset the cycle counter, run the
loop, then overwrite the termination reason with the cycle-limit message
whenever `ciclos_ejecutados >= max_ciclos` — even when the loop had just
broken with the agenda-empty reason in the final permitted cycle. -/
def inferir (bc : BaseConocimiento) (maxCiclos : Nat) (s0 : EstadoMotor) :
    EstadoMotor :=
  let s := inferirAux bc maxCiclos { s0 with ciclos_ejecutados := 0 }
  if maxCiclos ≤ s.ciclos_ejecutados then
    { s with razon_terminacion := razonLimiteCiclos maxCiclos }
  else s

/-- Strategy key in ℚ: the quantity each strategy maximises (`especificidad`,
activation timestamp, or explicit priority).  The numeric casts are order
embeddings, so comparisons under this key coincide with the source's three
per-strategy `max` keys. -/
def claveEstrategia (e : EstrategiaConflictResolution) (r : ReglaInstanciada) : ℚ :=
  match e with
  | EstrategiaConflictResolution.ESPECIFICIDAD => (r.especificidad : ℚ)
  | EstrategiaConflictResolution.RECENCIA => (r.timestamp_activacion : ℚ)
  | EstrategiaConflictResolution.PRIORIDAD_EXPLICITA => r.prioridad_explicita

/-- Well-formedness of the fact store's ids: every stored id is at most the
counter, and the ids are strictly increasing in creation (insertion) order.
The fresh store satisfies it and `assert_hecho` preserves it. -/
def idsValidos (m : MemoriaTrabajo) : Prop :=
  (∀ h ∈ m.hechos, h.id ≤ m.contadorHechos) ∧
  (m.hechos.map Hecho.id).Pairwise (fun a b => a < b)

/-- Modelled from the spec wording of C6: a marker-prefixed string naming a
bound variable is substituted by the bound value, an unbound variable falls
back to the literal marker string unchanged, every other value is used
as-is. -/
def valorResuelto (bindings : List (String × Valor)) (v : Valor) : Valor :=
  match v with
  | Valor.atom (Atomo.str s) =>
      if s.startsWith "$" then
        match dictGet bindings (s.drop 1) with
        | Option.some w => w
        | Option.none => Valor.atom (Atomo.str s)
      else Valor.atom (Atomo.str s)
  | w => w

/-- The action kinds that materialise a new fact. -/
def creaHecho (a : AccionRegla) : Bool :=
  a.tipo == TipoAccion.ASSERT || a.tipo == TipoAccion.CONCLUDE ||
    a.tipo == TipoAccion.RECOMMEND

/-- Modelled from the spec wording of C6: the facts an action list ought to
create, in order — one per ASSERT/CONCLUDE/RECOMMEND action, DERIVADO for
ASSERT and CONCLUSION otherwise, origin the firing rule's id,
confidence/justification copied from the action, ids and timestamps
consecutive from the store's counter and the clock. -/
def hechosEsperados (reglaId : String) (bindings : List (String × Valor)) :
    List AccionRegla → Nat → Nat → List Hecho
  | [], _, _ => []
  | a :: rest, contador, reloj =>
      if creaHecho a then
        { id := contador + 1, predicado := a.predicado,
          valor := valorResuelto bindings a.valor,
          tipo := if a.tipo = TipoAccion.ASSERT then TipoHecho.DERIVADO
                  else TipoHecho.CONCLUSION,
          origen := Option.some reglaId, timestamp := reloj,
          justificacion := a.explicacion, confianza := a.confianza }
          :: hechosEsperados reglaId bindings rest (contador + 1) (reloj + 1)
      else hechosEsperados reglaId bindings rest contador reloj

/-- The activations the MATCH phase appends for a rule list, given the (read
only) memory and the clock at entry. -/
def nuevasActivaciones (m : MemoriaTrabajo) :
    Nat → List ReglaProduccionAcademica → List ReglaInstanciada
  | _, [] => []
  | reloj, regla :: rest =>
      match evaluar_regla m regla with
      | Option.some bindings =>
          { regla_id := regla.id, bindings := bindings, hechos_activadores := [],
            timestamp_activacion := reloj, especificidad := regla.especificidad,
            prioridad_explicita := regla.prioridad, ya_ejecutada := false }
          :: nuevasActivaciones m (reloj + 1) rest
      | Option.none => nuevasActivaciones m reloj rest

/-- Engine state at the start of `inferir` for a fresh session. -/
def estadoCero : EstadoMotor :=
  { memoria := MemoriaTrabajo.init,
    agenda := Agenda.init EstrategiaConflictResolution.PRIORIDAD_EXPLICITA,
    razon_terminacion := "", ciclos_ejecutados := 0, reloj := 0 }

/-- Store holding the single fact `temperatura = 1` (created at tick 0). -/
def memoriaC1 : MemoriaTrabajo :=
  (assert_hecho MemoriaTrabajo.init "temperatura" (vint 1) TipoHecho.INICIAL
    Option.none "" 1 0).2

/-- A `<` condition that a working comparison would satisfy (1 < 5). -/
def condicionMenorC1 : CondicionRegla :=
  { predicado := "temperatura", operador := OperadorCondicion.MENOR,
    valor := vint 5 }

/-- A rule whose only action is a RETRACT. -/
def reglaRetractC1 : ReglaProduccionAcademica :=
  mkRegla "RX_RETRACT" "retirar temperatura" []
    [{ tipo := TipoAccion.RETRACT, predicado := "temperatura" }] 0

/-- Store with two facts for `p` sharing the maximal timestamp 5: ids 1 and 2
in insertion order. -/
def memoriaC2 : MemoriaTrabajo :=
  (assert_hecho
    (assert_hecho MemoriaTrabajo.init "p" (vint 1) TipoHecho.INICIAL
      Option.none "" 1 5).2
    "p" (vint 2) TipoHecho.INICIAL Option.none "" 1 5).2

/-- Knowledge base with no rules at all. -/
def bcVaciaC3 : BaseConocimiento :=
  { obtener_reglas := [], obtener_regla_por_id := fun _ => Option.none }

/-- A rule advertised by `obtener_reglas` but unresolvable by
`obtener_regla_por_id`: the configuration inconsistency of C4. -/
def reglaFantasmaC4 : ReglaProduccionAcademica :=
  mkRegla "R1" "regla fantasma" [] [] 0

/-- Knowledge base advertising `reglaFantasmaC4` while every id lookup
fails. -/
def bcFantasmaC4 : BaseConocimiento :=
  { obtener_reglas := [reglaFantasmaC4], obtener_regla_por_id := fun _ => Option.none }

/-- The activation the MATCH phase creates for `reglaFantasmaC4` in the first
cycle. -/
def activacionFantasmaC4 : ReglaInstanciada :=
  { regla_id := "R1", bindings := [], hechos_activadores := [],
    timestamp_activacion := 0, especificidad := 0, prioridad_explicita := 0,
    ya_ejecutada := false }

/-- Agenda with three activations under SPECIFICITY: positions 0 and 2 tie on
the maximal specificity 3 and position 1 is below it. -/
def agendaC5 : Agenda :=
  { reglasInstanciadas :=
      [{ regla_id := "A", bindings := [], hechos_activadores := [],
         timestamp_activacion := 0, especificidad := 3 },
       { regla_id := "B", bindings := [], hechos_activadores := [],
         timestamp_activacion := 1, especificidad := 1 },
       { regla_id := "C", bindings := [], hechos_activadores := [],
         timestamp_activacion := 2, especificidad := 3 }],
    estrategia := EstrategiaConflictResolution.ESPECIFICIDAD,
    historialEjecucion := [] }

/-- Store holding the single fact `p = "a"`. -/
def memoriaC8 : MemoriaTrabajo :=
  (assert_hecho MemoriaTrabajo.init "p" (vstr "a") TipoHecho.INICIAL
    Option.none "" 1 0).2

/-- Condition `p in ["a", "b"]` (operator field overridden per theorem). -/
def condicionEnC8 : CondicionRegla :=
  { predicado := "p", operador := OperadorCondicion.EN,
    valor := Valor.list [Atomo.str "a", Atomo.str "b"] }

/-- A condition-free rule recommending a plant, and the knowledge base
advertising it. -/
def reglaLibreC9 : ReglaProduccionAcademica :=
  mkRegla "R9" "siempre aplicable" []
    [{ tipo := TipoAccion.RECOMMEND, predicado := "planta_ideal",
       valor := vstr "Sansevieria", confianza := 1 }] 5

/-- Knowledge base for C9. -/
def bcLibreC9 : BaseConocimiento :=
  { obtener_reglas := [reglaLibreC9],
    obtener_regla_por_id := fun i => if i = "R9" then Option.some reglaLibreC9 else Option.none }

lemma pyMaxBy_mem {α β : Type} [LinearOrder β] (key : α → β) :
    ∀ (xs : List α) (acc : α), pyMaxBy key acc xs = acc ∨ pyMaxBy key acc xs ∈ xs := by
  intro xs
  induction xs with
  | nil => intro acc; exact Or.inl rfl
  | cons x xs ih =>
      intro acc
      by_cases hax : key acc < key x
      · simp only [pyMaxBy, if_pos hax]
        rcases ih x with h | h
        · refine Or.inr ?_
          rw [h]
          exact List.mem_cons_self _ _
        · exact Or.inr (List.mem_cons_of_mem _ h)
      · simp only [pyMaxBy, if_neg hax]
        rcases ih acc with h | h
        · exact Or.inl h
        · exact Or.inr (List.mem_cons_of_mem _ h)

lemma pyMaxBy_le {α β : Type} [LinearOrder β] (key : α → β) :
    ∀ (xs : List α) (acc : α),
      key acc ≤ key (pyMaxBy key acc xs) ∧
      ∀ x ∈ xs, key x ≤ key (pyMaxBy key acc xs) := by
  intro xs
  induction xs with
  | nil => intro acc; exact ⟨le_refl _, by simp⟩
  | cons x xs ih =>
      intro acc
      by_cases hax : key acc < key x
      · simp only [pyMaxBy, if_pos hax]
        obtain ⟨h1, h2⟩ := ih x
        refine ⟨le_trans hax.le h1, ?_⟩
        intro y hy
        rcases List.mem_cons.mp hy with rfl | hy
        · exact h1
        · exact h2 y hy
      · simp only [pyMaxBy, if_neg hax]
        obtain ⟨h1, h2⟩ := ih acc
        refine ⟨h1, ?_⟩
        intro y hy
        rcases List.mem_cons.mp hy with rfl | hy
        · exact le_trans (le_of_not_lt hax) h1
        · exact h2 y hy

lemma pyMaxBy_first {α β : Type} [LinearOrder β] (key : α → β) :
    ∀ (xs : List α) (acc : α),
      ∃ pre post, acc :: xs = pre ++ pyMaxBy key acc xs :: post ∧
        ∀ y ∈ pre, key y < key (pyMaxBy key acc xs) := by
  intro xs
  induction xs with
  | nil => intro acc; exact ⟨[], [], rfl, by simp⟩
  | cons x xs ih =>
      intro acc
      by_cases hax : key acc < key x
      · simp only [pyMaxBy, if_pos hax]
        obtain ⟨pre, post, heq, hpre⟩ := ih x
        refine ⟨acc :: pre, post, ?_, ?_⟩
        · rw [List.cons_append, ← heq]
        · intro y hy
          rcases List.mem_cons.mp hy with rfl | hy
          · exact lt_of_lt_of_le hax (pyMaxBy_le key xs x).1
          · exact hpre y hy
      · simp only [pyMaxBy, if_neg hax]
        obtain ⟨pre, post, heq, hpre⟩ := ih acc
        cases pre with
        | nil =>
            simp only [List.nil_append] at heq
            injection heq with h1 h2
            refine ⟨[], x :: xs, ?_, by simp⟩
            rw [List.nil_append, ← h1]
        | cons p pre2 =>
            simp only [List.cons_append, List.cons.injEq] at heq
            obtain ⟨rfl, hxs⟩ := heq
            have hpacc : key acc < key (pyMaxBy key acc xs) :=
              hpre acc (List.mem_cons_self _ _)
            refine ⟨acc :: x :: pre2, post, ?_, ?_⟩
            · rw [List.cons_append, List.cons_append, ← hxs]
            · intro y hy
              rcases List.mem_cons.mp hy with rfl | hy
              · exact hpacc
              · rcases List.mem_cons.mp hy with rfl | hy
                · exact lt_of_le_of_lt (le_of_not_lt hax) hpacc
                · exact hpre y (List.mem_cons_of_mem _ hy)

lemma candidatosDesde_mem :
    ∀ (l : List ReglaInstanciada) (k j : Nat) (r : ReglaInstanciada),
      (j, r) ∈ candidatosDesde k l ↔
        ∃ j0, j = k + j0 ∧ l.get? j0 = Option.some r ∧ r.ya_ejecutada = false := by
  intro l
  induction l with
  | nil =>
      intro k j r
      simp [candidatosDesde]
  | cons x xs ih =>
      intro k j r
      by_cases hx : x.ya_ejecutada
      · simp only [candidatosDesde, if_pos hx]
        rw [ih (k + 1) j r]
        constructor
        · rintro ⟨j0, h1, h2, h3⟩
          exact ⟨j0 + 1, by omega, h2, h3⟩
        · rintro ⟨j0, h1, h2, h3⟩
          cases j0 with
          | zero =>
              have : x = r := by
                simpa using h2
              rw [this] at hx
              rw [h3] at hx
              cases hx
          | succ j1 =>
              exact ⟨j1, by omega, h2, h3⟩
      · simp only [candidatosDesde, if_neg hx]
        constructor
        · intro hmem
          rcases List.mem_cons.mp hmem with heq | hrest
          · simp only [Prod.mk.injEq] at heq
            obtain ⟨rfl, rfl⟩ := heq
            exact ⟨0, by omega, rfl, by simpa using hx⟩
          · obtain ⟨j0, h1, h2, h3⟩ := (ih (k + 1) j r).mp hrest
            exact ⟨j0 + 1, by omega, h2, h3⟩
        · rintro ⟨j0, h1, h2, h3⟩
          cases j0 with
          | zero =>
              have hxr : x = r := by simpa using h2
              have hjk : j = k := by omega
              rw [hjk, hxr]
              exact List.mem_cons_self _ _
          | succ j1 =>
              refine List.mem_cons_of_mem _ ?_
              exact (ih (k + 1) j r).mpr ⟨j1, by omega, h2, h3⟩

lemma candidatosDesde_indice_ge :
    ∀ (l : List ReglaInstanciada) (k : Nat) (p : Nat × ReglaInstanciada),
      p ∈ candidatosDesde k l → k ≤ p.1 := by
  intro l k p hp
  obtain ⟨j0, h1, _, _⟩ := (candidatosDesde_mem l k p.1 p.2).mp (by simpa using hp)
  omega

lemma candidatosDesde_sorted :
    ∀ (l : List ReglaInstanciada) (k : Nat),
      (candidatosDesde k l).Pairwise (fun p q => p.1 < q.1) := by
  intro l
  induction l with
  | nil => intro k; simp [candidatosDesde]
  | cons x xs ih =>
      intro k
      by_cases hx : x.ya_ejecutada
      · simp only [candidatosDesde, if_pos hx]
        exact ih (k + 1)
      · simp only [candidatosDesde, if_neg hx]
        refine List.Pairwise.cons ?_ (ih (k + 1))
        intro q hq
        have := candidatosDesde_indice_ge xs (k + 1) q hq
        omega

lemma candidatosDesde_nil_iff :
    ∀ (l : List ReglaInstanciada) (k : Nat),
      candidatosDesde k l = [] ↔ ∀ r ∈ l, r.ya_ejecutada = true := by
  intro l
  induction l with
  | nil => intro k; simp [candidatosDesde]
  | cons x xs ih =>
      intro k
      by_cases hx : x.ya_ejecutada
      · simp only [candidatosDesde, if_pos hx]
        rw [ih (k + 1)]
        constructor
        · intro h r hr
          rcases List.mem_cons.mp hr with rfl | hr
          · exact hx
          · exact h r hr
        · intro h r hr
          exact h r (List.mem_cons_of_mem _ hr)
      · simp only [candidatosDesde, if_neg hx]
        constructor
        · intro h; cases h
        · intro h
          exact absurd (h x (List.mem_cons_self _ _)) (Bool.eq_false_iff.mpr hx ▸ by simp [Bool.eq_false_iff.mpr hx])

lemma faseMatchLista_spec :
    ∀ (reglas : List ReglaProduccionAcademica) (s : EstadoMotor),
      (faseMatchLista s reglas).memoria = s.memoria ∧
      (faseMatchLista s reglas).razon_terminacion = s.razon_terminacion ∧
      (faseMatchLista s reglas).ciclos_ejecutados = s.ciclos_ejecutados ∧
      (faseMatchLista s reglas).agenda.estrategia = s.agenda.estrategia ∧
      (faseMatchLista s reglas).agenda.reglasInstanciadas =
        s.agenda.reglasInstanciadas ++ nuevasActivaciones s.memoria s.reloj reglas := by
  intro reglas
  induction reglas with
  | nil => intro s; simp [faseMatchLista, nuevasActivaciones]
  | cons regla rest ih =>
      intro s
      simp only [faseMatchLista, nuevasActivaciones]
      cases hev : evaluar_regla s.memoria regla with
      | none =>
          simpa using ih s
      | some bindings =>
          obtain ⟨h1, h2, h3, h4, h5⟩ := ih
            { s with
              agenda := activar_regla s.agenda regla.id bindings []
                regla.especificidad regla.prioridad s.reloj,
              reloj := s.reloj + 1 }
          refine ⟨h1, h2, h3, h4, ?_⟩
          rw [h5]
          simp [activar_regla]

lemma faseAct_preserva :
    ∀ (bc : BaseConocimiento) (i : Nat) (ri : ReglaInstanciada) (s : EstadoMotor),
      (faseAct bc i ri s).ciclos_ejecutados = s.ciclos_ejecutados ∧
      (faseAct bc i ri s).razon_terminacion = s.razon_terminacion := by
  intro bc i ri s
  unfold faseAct
  cases bc.obtener_regla_por_id ri.regla_id with
  | none => exact ⟨rfl, rfl⟩
  | some regla => exact ⟨rfl, rfl⟩

lemma cicloMotor_spec :
    ∀ (bc : BaseConocimiento) (s : EstadoMotor),
      (cicloMotor bc s).1.ciclos_ejecutados = s.ciclos_ejecutados + 1 ∧
      ((cicloMotor bc s).2 = true →
        (cicloMotor bc s).1.razon_terminacion = razonAgendaVacia) := by
  intro bc s
  have hm := (faseMatchLista_spec bc.obtener_reglas
    { s with ciclos_ejecutados := s.ciclos_ejecutados + 1 }).2.2.1
  cases hsel : seleccionar_proxima (faseMatch bc
      { s with ciclos_ejecutados := s.ciclos_ejecutados + 1 }).agenda with
  | none =>
      have he : cicloMotor bc s =
          ({ faseMatch bc { s with ciclos_ejecutados := s.ciclos_ejecutados + 1 } with
             razon_terminacion := razonAgendaVacia }, true) := by
        simp [cicloMotor, faseMatch] at hsel ⊢
        rw [hsel]
      rw [he]
      exact ⟨by simpa [faseMatch] using hm, fun _ => rfl⟩
  | some p =>
      obtain ⟨i, ri⟩ := p
      have he : cicloMotor bc s =
          (faseAct bc i ri
            (faseMatch bc { s with ciclos_ejecutados := s.ciclos_ejecutados + 1 }), false) := by
        simp [cicloMotor, faseMatch] at hsel ⊢
        rw [hsel]
      rw [he]
      refine ⟨?_, fun h => by cases h⟩
      rw [(faseAct_preserva bc i ri _).1]
      simpa [faseMatch] using hm

lemma inferirAux_spec :
    ∀ (bc : BaseConocimiento) (fuel : Nat) (s : EstadoMotor),
      (inferirAux bc fuel s).ciclos_ejecutados ≤ s.ciclos_ejecutados + fuel ∧
      ((inferirAux bc fuel s).ciclos_ejecutados < s.ciclos_ejecutados + fuel →
        (inferirAux bc fuel s).razon_terminacion = razonAgendaVacia) := by
  intro bc fuel
  induction fuel with
  | zero =>
      intro s
      simp [inferirAux]
  | succ fuel ih =>
      intro s
      obtain ⟨hc, hr⟩ := cicloMotor_spec bc s
      cases hbrk : (cicloMotor bc s).2 with
      | true =>
          have he : inferirAux bc (fuel + 1) s = (cicloMotor bc s).1 := by
            simp [inferirAux, hbrk]
          rw [he]
          exact ⟨by omega, fun _ => hr hbrk⟩
      | false =>
          have he : inferirAux bc (fuel + 1) s =
              inferirAux bc fuel (cicloMotor bc s).1 := by
            simp [inferirAux, hbrk]
          rw [he]
          obtain ⟨ih1, ih2⟩ := ih (cicloMotor bc s).1
          rw [hc] at ih1 ih2
          exact ⟨by omega, fun h => ih2 (by omega)⟩

lemma creaHecho_iff (a : AccionRegla) :
    creaHecho a = true ↔
      (a.tipo = TipoAccion.ASSERT ∨ a.tipo = TipoAccion.CONCLUDE ∨
        a.tipo = TipoAccion.RECOMMEND) := by
  simp [creaHecho, Bool.or_eq_true, beq_iff_eq, or_assoc]

lemma resolver_eq_resuelto :
    ∀ (b : List (String × Valor)) (v : Valor),
      resolverValorAccion b v = valorResuelto b v := by
  intro b v
  cases v with
  | atom a =>
      cases a with
      | str s =>
          by_cases hpre : s.startsWith "$"
          · simp only [resolverValorAccion, valorResuelto, if_pos hpre]
            cases dictGet b (s.drop 1) with
            | none => rfl
            | some w => rfl
          · simp only [resolverValorAccion, valorResuelto, if_neg hpre]
      | int n => rfl
      | bool x => rfl
      | none => rfl
  | list l => rfl

lemma ejecutarAccionesDesde_hechos :
    ∀ (acciones : List AccionRegla) (reglaId : String)
      (bindings : List (String × Valor)) (m : MemoriaTrabajo) (reloj : Nat),
      (ejecutarAccionesDesde reglaId bindings acciones m reloj).2.1.hechos =
        m.hechos ++ hechosEsperados reglaId bindings acciones m.contadorHechos reloj ∧
      (ejecutarAccionesDesde reglaId bindings acciones m reloj).2.1.contadorHechos =
        m.contadorHechos + acciones.countP creaHecho ∧
      (ejecutarAccionesDesde reglaId bindings acciones m reloj).1.length =
        acciones.countP creaHecho := by
  intro acciones
  induction acciones with
  | nil =>
      intro reglaId bindings m reloj
      simp [ejecutarAccionesDesde, hechosEsperados]
  | cons a rest ih =>
      intro reglaId bindings m reloj
      by_cases hcrea : a.tipo = TipoAccion.ASSERT ∨ a.tipo = TipoAccion.CONCLUDE ∨
          a.tipo = TipoAccion.RECOMMEND
      · have hbool : creaHecho a = true := (creaHecho_iff a).mpr hcrea
        simp only [ejecutarAccionesDesde, if_pos hcrea]
        obtain ⟨ih1, ih2, ih3⟩ := ih reglaId bindings
          (assert_hecho m a.predicado (resolverValorAccion bindings a.valor)
            (if a.tipo = TipoAccion.ASSERT then TipoHecho.DERIVADO else TipoHecho.CONCLUSION)
            (Option.some reglaId) a.explicacion a.confianza reloj).2 (reloj + 1)
        refine ⟨?_, ?_, ?_⟩
        · rw [ih1]
          simp only [assert_hecho, hechosEsperados, if_pos hbool,
            resolver_eq_resuelto, List.append_assoc, List.singleton_append]
        · rw [ih2]
          simp only [assert_hecho, List.countP_cons, hbool, if_pos]
          omega
        · simp only [List.length_cons, ih3]
          simp only [List.countP_cons, hbool, if_pos]
      · have hbool : creaHecho a = false := by
          rcases Bool.eq_false_or_eq_true (creaHecho a) with h | h
          · exact absurd ((creaHecho_iff a).mp h) hcrea
          · exact h
        simp only [ejecutarAccionesDesde, if_neg hcrea]
        obtain ⟨ih1, ih2, ih3⟩ := ih reglaId bindings m reloj
        refine ⟨?_, ?_, ?_⟩
        · rw [ih1]
          simp [hechosEsperados, hbool]
        · rw [ih2]
          simp [List.countP_cons, hbool]
        · rw [ih3]
          simp [List.countP_cons, hbool]

lemma ejecutarAccionesDesde_omite :
    ∀ (acciones : List AccionRegla) (reglaId : String)
      (bindings : List (String × Valor)) (m : MemoriaTrabajo) (reloj : Nat),
      (∀ a ∈ acciones, creaHecho a = false) →
      ejecutarAccionesDesde reglaId bindings acciones m reloj = ([], m, reloj) := by
  intro acciones
  induction acciones with
  | nil => intro reglaId bindings m reloj _; rfl
  | cons a rest ih =>
      intro reglaId bindings m reloj h
      have ha : creaHecho a = false := h a (List.mem_cons_self _ _)
      have hcrea : ¬(a.tipo = TipoAccion.ASSERT ∨ a.tipo = TipoAccion.CONCLUDE ∨
          a.tipo = TipoAccion.RECOMMEND) := by
        intro hc
        rw [(creaHecho_iff a).mpr hc] at ha
        cases ha
      simp only [ejecutarAccionesDesde, if_neg hcrea]
      exact ih reglaId bindings m reloj (fun b hb => h b (List.mem_cons_of_mem _ hb))

lemma nuevasActivaciones_countP :
    ∀ (reglas : List ReglaProduccionAcademica) (m : MemoriaTrabajo) (reloj : Nat)
      (regla : ReglaProduccionAcademica),
      regla ∈ reglas → (∃ b, evaluar_regla m regla = Option.some b) →
      1 ≤ (nuevasActivaciones m reloj reglas).countP
        (fun ri => ri.regla_id == regla.id) := by
  intro reglas
  induction reglas with
  | nil => intro m reloj regla h; cases h
  | cons cabeza rest ih =>
      intro m reloj regla hmem hev
      rcases List.mem_cons.mp hmem with rfl | hmem
      · obtain ⟨b, hb⟩ := hev
        simp only [nuevasActivaciones, hb]
        rw [List.countP_cons_of_pos]
        · omega
        · simp
      · simp only [nuevasActivaciones]
        cases evaluar_regla m cabeza with
        | none => exact ih m reloj regla hmem hev
        | some b =>
            have := ih m (reloj + 1) regla hmem hev
            rw [List.countP_cons]
            omega

/-- C10: `assert_hecho` performs no range validation of the confidence
argument: for every rational `c`, including values outside `[0, 1]`, the
call succeeds and appends a fact whose `confianza` is exactly `c`, leaving
every existing fact untouched — the data model's `[0, 1]` bound is not
enforced at the store's public interface. -/
theorem C10_assert_hecho_confianza_sin_validacion :
    ∀ (m : MemoriaTrabajo) (p : String) (v : Valor) (t : TipoHecho)
      (o : Option String) (j : String) (c : ℚ) (ts : Nat),
      (assert_hecho m p v t o j c ts).2.hechos =
        m.hechos ++
          [{ id := m.contadorHechos + 1, predicado := p, valor := v, tipo := t,
             origen := o, timestamp := ts, justificacion := j, confianza := c }] := by
  intro m p v t o j c ts
  rfl

/-- C7: every `assert_hecho` call succeeds, appends a new fact without
overwriting any existing one, and increases the store's count by exactly
one; the returned id is fresh (distinct from every stored id) and the id
invariant — ids pairwise distinct and strictly increasing in creation
order — is preserved across any sequence of calls, regardless of the facts'
categories. -/
theorem C7_assert_hecho_monotono :
    ∀ (m : MemoriaTrabajo) (p : String) (v : Valor) (t : TipoHecho)
      (o : Option String) (j : String) (c : ℚ) (ts : Nat),
      idsValidos m →
      (assert_hecho m p v t o j c ts).2.hechos.length = m.hechos.length + 1 ∧
      (assert_hecho m p v t o j c ts).2.hechos.take m.hechos.length = m.hechos ∧
      (assert_hecho m p v t o j c ts).1 = m.contadorHechos + 1 ∧
      (assert_hecho m p v t o j c ts).2.contadorHechos = m.contadorHechos + 1 ∧
      (∀ h ∈ m.hechos, h.id ≠ (assert_hecho m p v t o j c ts).1) ∧
      idsValidos (assert_hecho m p v t o j c ts).2 := by
  intro m p v t o j c ts hm
  obtain ⟨hbound, hsorted⟩ := hm
  refine ⟨by simp [assert_hecho], ?_, rfl, rfl, ?_, ?_, ?_⟩
  · show (m.hechos ++ [_]).take m.hechos.length = m.hechos
    exact List.take_left _ _
  · intro h hh
    have := hbound h hh
    show h.id ≠ m.contadorHechos + 1
    omega
  · intro h hh
    rcases List.mem_append.mp hh with hh | hh
    · exact le_trans (hbound h hh) (Nat.le_succ _)
    · rcases List.mem_singleton.mp hh with rfl
      exact le_refl _
  · show ((m.hechos ++ [_]).map Hecho.id).Pairwise (fun a b => a < b)
    rw [List.map_append]
    rw [List.pairwise_append]
    refine ⟨hsorted, by simp, ?_⟩
    intro x hx y hy
    simp only [List.mem_map] at hx
    obtain ⟨h, hh, rfl⟩ := hx
    simp only [List.map_cons, List.map_nil, List.mem_singleton] at hy
    rw [hy]
    have := hbound h hh
    omega

/-- Witness for C7 at the fresh store. -/
theorem C7_testigo :
    idsValidos MemoriaTrabajo.init ∧
    (assert_hecho MemoriaTrabajo.init "p" (vint 1) TipoHecho.INICIAL
      Option.none "" 2 0).2.hechos.length = 1 := by
  have h0 : idsValidos MemoriaTrabajo.init :=
    ⟨by simp [MemoriaTrabajo.init], by simp [MemoriaTrabajo.init]⟩
  refine ⟨h0, ?_⟩
  have := (C7_assert_hecho_monotono MemoriaTrabajo.init "p" (vint 1)
    TipoHecho.INICIAL Option.none "" 2 0 h0).1
  simpa [MemoriaTrabajo.init] using this

/-- C2 counterexample: in `memoriaC2` both facts for `p` carry the maximal
timestamp 5, yet `obtener_hecho` returns the fact with id 1 — the first in
index iteration order — not the one with the highest id 2, refuting the
highest-id tie-break. -/
theorem C2_contraejemplo :
    (hechosDe memoriaC2 "p").map (fun h => (h.id, h.timestamp)) = [(1, 5), (2, 5)] ∧
    (obtener_hecho memoriaC2 "p").map (fun h => h.id) = Option.some 1 := by
  constructor
  · rfl
  · rfl

/-- C2 (amended): `obtener_hecho` returns `None` exactly when the predicate
has no facts; otherwise it returns the first fact, in the index's iteration
order, attaining the maximal timestamp: every fact of the predicate is at
most as recent, and every fact before the returned one in iteration order is
strictly older.  When several facts share the maximal timestamp the result
is the iteration-order tie-break, not the highest id. -/
theorem C2_obtener_hecho_maximo :
    ∀ (m : MemoriaTrabajo) (p : String),
      (obtener_hecho m p = Option.none ↔ hechosDe m p = []) ∧
      (∀ h, obtener_hecho m p = Option.some h →
        ∃ pre post, hechosDe m p = pre ++ h :: post ∧
          (∀ h2 ∈ pre, h2.timestamp < h.timestamp) ∧
          (∀ h2 ∈ hechosDe m p, h2.timestamp ≤ h.timestamp)) := by
  intro m p
  constructor
  · unfold obtener_hecho
    cases hl : hechosDe m p with
    | nil => simp
    | cons x xs => simp
  · intro h hh
    unfold obtener_hecho at hh
    cases hl : hechosDe m p with
    | nil => rw [hl] at hh; cases hh
    | cons x xs =>
        rw [hl] at hh
        have hmax : pyMaxBy (fun y => y.timestamp) x xs = h := by
          simpa using hh
        obtain ⟨pre, post, heq, hpre⟩ := pyMaxBy_first (fun y => y.timestamp) xs x
        rw [hmax] at heq hpre
        obtain ⟨hle1, hle2⟩ := pyMaxBy_le (fun y => y.timestamp) xs x
        rw [hmax] at hle1 hle2
        refine ⟨pre, post, heq, hpre, ?_⟩
        intro h2 hh2
        rcases List.mem_cons.mp hh2 with rfl | hh2
        · exact hle1
        · exact hle2 h2 hh2

/-- Witness for C2's amended theorem at `memoriaC2`. -/
theorem C2_testigo :
    ∃ pre post, hechosDe memoriaC2 "p" = pre ++
        { id := 1, predicado := "p", valor := vint 1, tipo := TipoHecho.INICIAL,
          origen := Option.none, timestamp := 5, justificacion := "",
          confianza := 1 } :: post := by
  obtain ⟨pre, post, heq, _, _⟩ :=
    (C2_obtener_hecho_maximo memoriaC2 "p").2 _ (by rfl)
  exact ⟨pre, post, heq⟩

/-- C8: for every store, base condition and bindings, when the condition
value is not a sequence both IN and NOT_IN evaluate to false; when it is a
sequence and a fact for the predicate exists, IN and NOT_IN evaluate to
complementary truth values. -/
theorem C8_en_no_en_complementarios :
    ∀ (m : MemoriaTrabajo) (c : CondicionRegla) (b : List (String × Valor)),
      (c.valor.isList = false →
        (evaluar_condicion m { c with operador := OperadorCondicion.EN } b).1 = false ∧
        (evaluar_condicion m { c with operador := OperadorCondicion.NO_EN } b).1 = false) ∧
      (c.valor.isList = true →
        ∀ h, obtener_hecho m c.predicado = Option.some h →
          (evaluar_condicion m { c with operador := OperadorCondicion.NO_EN } b).1 =
            !(evaluar_condicion m { c with operador := OperadorCondicion.EN } b).1) := by
  intro m c b
  constructor
  · intro hnl
    cases hv : c.valor with
    | list l => rw [hv] at hnl; simp [Valor.isList] at hnl
    | atom a =>
        cases hob : obtener_hecho m c.predicado with
        | none => exact ⟨by simp [evaluar_condicion, hob], by simp [evaluar_condicion, hob]⟩
        | some h => exact ⟨by simp [evaluar_condicion, hob, hv],
            by simp [evaluar_condicion, hob, hv]⟩
  · intro hl h hob
    cases hv : c.valor with
    | atom a => rw [hv] at hl; simp [Valor.isList] at hl
    | list l => simp [evaluar_condicion, hob, hv]

/-- Witness for C8 at `memoriaC8` and `condicionEnC8` (sequence case) and at
the same condition with the non-sequence value 3. -/
theorem C8_testigo :
    ((evaluar_condicion memoriaC8
        { condicionEnC8 with operador := OperadorCondicion.NO_EN } []).1 =
      !(evaluar_condicion memoriaC8
        { condicionEnC8 with operador := OperadorCondicion.EN } []).1) ∧
    (evaluar_condicion memoriaC8
        { condicionEnC8 with valor := vint 3, operador := OperadorCondicion.EN } []).1 =
      false := by
  constructor
  · exact (C8_en_no_en_complementarios memoriaC8 condicionEnC8 []).2 rfl
      { id := 1, predicado := "p", valor := vstr "a", tipo := TipoHecho.INICIAL,
        origen := Option.none, timestamp := 0, justificacion := "", confianza := 1 }
      (by rfl)
  · exact ((C8_en_no_en_complementarios memoriaC8
      { condicionEnC8 with valor := vint 3 } []).1 rfl).1

/-- C1 counterexample: `memoriaC1` holds `temperatura = 1`, so a working `<`
against 5 would succeed, yet evaluating the MENOR condition returns plain
`false` with untouched bindings — indistinguishable from an ordinary failed
condition, with no error signal — and executing a rule whose only action is
RETRACT returns no created facts and the memory unchanged, a silent no-op. -/
theorem C1_contraejemplo :
    obtener_hecho memoriaC1 "temperatura" ≠ Option.none ∧
    evaluar_condicion memoriaC1 condicionMenorC1 [] = (false, []) ∧
    ejecutar_acciones memoriaC1 reglaRetractC1 [] 7 = ([], memoriaC1, 7) := by
  refine ⟨by decide, rfl, rfl⟩

/-- C1 (amended): the declared-but-unimplemented condition operators (MENOR,
MENOR_IGUAL, MAYOR, MAYOR_IGUAL, CONTIENE, COINCIDE_PATRON) silently
evaluate to false with untouched bindings, and the unimplemented action
kinds (RETRACT, MODIFY, CALL_FUNCTION, SET_VARIABLE, INCREMENT) are silently
skipped — no fact is created, the memory and clock are unchanged, and no
error is surfaced. -/
theorem C1_operadores_sin_implementar_silenciosos :
    (∀ (m : MemoriaTrabajo) (c : CondicionRegla) (b : List (String × Valor)),
      (c.operador = OperadorCondicion.MENOR ∨ c.operador = OperadorCondicion.MENOR_IGUAL ∨
       c.operador = OperadorCondicion.MAYOR ∨ c.operador = OperadorCondicion.MAYOR_IGUAL ∨
       c.operador = OperadorCondicion.CONTIENE ∨
       c.operador = OperadorCondicion.COINCIDE_PATRON) →
      evaluar_condicion m c b = (false, b)) ∧
    (∀ (m : MemoriaTrabajo) (regla : ReglaProduccionAcademica)
       (b : List (String × Valor)) (reloj : Nat),
      (∀ a ∈ regla.acciones,
        a.tipo = TipoAccion.RETRACT ∨ a.tipo = TipoAccion.MODIFY ∨
        a.tipo = TipoAccion.CALL_FUNCTION ∨ a.tipo = TipoAccion.SET_VARIABLE ∨
        a.tipo = TipoAccion.INCREMENT) →
      ejecutar_acciones m regla b reloj = ([], m, reloj)) := by
  constructor
  · intro m c b hop
    cases hob : obtener_hecho m c.predicado with
    | none => rcases hop with h | h | h | h | h | h <;> simp [evaluar_condicion, h, hob]
    | some hx => rcases hop with h | h | h | h | h | h <;> simp [evaluar_condicion, h, hob]
  · intro m regla b reloj hacc
    unfold ejecutar_acciones
    refine ejecutarAccionesDesde_omite regla.acciones regla.id b m reloj ?_
    intro a ha
    rcases hacc a ha with h | h | h | h | h <;> simp [creaHecho, h]

/-- Witness for C1's amended theorem at the concrete MENOR condition and the
RETRACT-only rule. -/
theorem C1_testigo :
    evaluar_condicion memoriaC1 condicionMenorC1 [] = (false, []) ∧
    ejecutar_acciones memoriaC1 reglaRetractC1 [] 9 = ([], memoriaC1, 9) := by
  constructor
  · exact C1_operadores_sin_implementar_silenciosos.1 memoriaC1 condicionMenorC1 []
      (Or.inl rfl)
  · refine C1_operadores_sin_implementar_silenciosos.2 memoriaC1 reglaRetractC1 [] 9 ?_
    intro a ha
    have : a = { tipo := TipoAccion.RETRACT, predicado := "temperatura" } := by
      simpa [reglaRetractC1, mkRegla] using ha
    rw [this]
    exact Or.inl rfl

/-- C9: a rule with an empty condition list evaluates successfully against
every store, yielding the empty bindings map, and consequently every MATCH
phase of every cycle activates a fresh instance of it on the agenda. -/
theorem C9_regla_sin_condiciones_siempre_activa :
    ∀ (regla : ReglaProduccionAcademica),
      regla.condiciones = [] →
      (∀ m : MemoriaTrabajo, evaluar_regla m regla = Option.some []) ∧
      (∀ (bc : BaseConocimiento) (s : EstadoMotor),
        regla ∈ bc.obtener_reglas →
        s.agenda.reglasInstanciadas.countP (fun ri => ri.regla_id == regla.id) + 1 ≤
          (faseMatch bc s).agenda.reglasInstanciadas.countP
            (fun ri => ri.regla_id == regla.id)) := by
  intro regla hcond
  have hev : ∀ m : MemoriaTrabajo, evaluar_regla m regla = Option.some [] := by
    intro m
    unfold evaluar_regla
    rw [hcond]
    rfl
  refine ⟨hev, ?_⟩
  intro bc s hmem
  have h5 := (faseMatchLista_spec bc.obtener_reglas s).2.2.2.2
  unfold faseMatch
  rw [h5, List.countP_append]
  have hn := nuevasActivaciones_countP bc.obtener_reglas s.memoria s.reloj regla hmem
    ⟨[], hev s.memoria⟩
  omega

/-- Witness for C9 at the condition-free rule `reglaLibreC9`. -/
theorem C9_testigo :
    evaluar_regla MemoriaTrabajo.init reglaLibreC9 = Option.some [] ∧
    1 ≤ (faseMatch bcLibreC9 estadoCero).agenda.reglasInstanciadas.countP
          (fun ri => ri.regla_id == reglaLibreC9.id) := by
  have h := C9_regla_sin_condiciones_siempre_activa reglaLibreC9 rfl
  refine ⟨h.1 MemoriaTrabajo.init, ?_⟩
  have h2 := h.2 bcLibreC9 estadoCero (by simp [bcLibreC9])
  simpa [estadoCero, Agenda.init] using h2

/-- C6: executing a rule's actions resolves each action value by the
variable-marker convention (a `$`-prefixed string is replaced by the bound
value of the named variable, falling back to the untouched marker string
when unbound; any other value is used as-is), and appends exactly one fact
per ASSERT / CONCLUDE / RECOMMEND action — DERIVADO for ASSERT, CONCLUSION
for the other two, origin the firing rule's id, confidence and justification
copied from the action — and no fact for any other action kind. -/
theorem C6_ejecutar_acciones_spec :
    ∀ (m : MemoriaTrabajo) (regla : ReglaProduccionAcademica)
      (b : List (String × Valor)) (reloj : Nat),
      (ejecutar_acciones m regla b reloj).2.1.hechos =
        m.hechos ++ hechosEsperados regla.id b regla.acciones m.contadorHechos reloj ∧
      (ejecutar_acciones m regla b reloj).1.length =
        regla.acciones.countP creaHecho ∧
      (∀ v, resolverValorAccion b v = valorResuelto b v) := by
  intro m regla b reloj
  obtain ⟨h1, h2, h3⟩ := ejecutarAccionesDesde_hechos regla.acciones regla.id b m reloj
  exact ⟨h1, h3, fun v => resolver_eq_resuelto b v⟩

/-- C3 counterexample: with no rules and `max_ciclos = 1`, cycle 1's RESOLVE
finds no activation (selection yields `None`) and the loop breaks with the
agenda-empty reason, yet `inferir` returns the cycle-limit message, because
the post-loop check overwrites the reason when the count reached the
limit. -/
theorem C3_contraejemplo :
    seleccionar_proxima (faseMatch bcVaciaC3
      { estadoCero with ciclos_ejecutados := 1 }).agenda = Option.none ∧
    (cicloMotor bcVaciaC3 estadoCero).2 = true ∧
    (inferir bcVaciaC3 1 estadoCero).ciclos_ejecutados = 1 ∧
    (inferir bcVaciaC3 1 estadoCero).razon_terminacion = razonLimiteCiclos 1 ∧
    razonLimiteCiclos 1 ≠ razonAgendaVacia := by
  refine ⟨rfl, rfl, rfl, rfl, by decide⟩

/-- C3 (amended): the agenda-empty break reason survives exactly when the
break happens strictly before the cycle limit is reached: whenever `inferir`
returns a cycle count below `max_ciclos` the termination reason is the
agenda-empty message, but whenever the count reaches `max_ciclos` —
including an agenda-empty break occurring in that final permitted cycle —
the post-loop check overwrites the reason with the cycle-limit message. -/
theorem C3_inferir_razon_terminacion :
    ∀ (bc : BaseConocimiento) (maxCiclos : Nat) (s0 : EstadoMotor),
      ((inferir bc maxCiclos s0).ciclos_ejecutados < maxCiclos →
        (inferir bc maxCiclos s0).razon_terminacion = razonAgendaVacia) ∧
      (maxCiclos ≤ (inferir bc maxCiclos s0).ciclos_ejecutados →
        (inferir bc maxCiclos s0).razon_terminacion = razonLimiteCiclos maxCiclos) := by
  intro bc maxCiclos s0
  obtain ⟨ha, hb⟩ := inferirAux_spec bc maxCiclos { s0 with ciclos_ejecutados := 0 }
  have h0 : ({ s0 with ciclos_ejecutados := 0 } : EstadoMotor).ciclos_ejecutados = 0 :=
    rfl
  rw [h0, Nat.zero_add] at ha hb
  by_cases h : maxCiclos ≤
      (inferirAux bc maxCiclos { s0 with ciclos_ejecutados := 0 }).ciclos_ejecutados
  · have he : inferir bc maxCiclos s0 =
        { inferirAux bc maxCiclos { s0 with ciclos_ejecutados := 0 } with
          razon_terminacion := razonLimiteCiclos maxCiclos } := by
      simp [inferir, h]
    rw [he]
    constructor
    · intro hlt
      simp only [] at hlt
      omega
    · intro _
      rfl
  · have he : inferir bc maxCiclos s0 =
        inferirAux bc maxCiclos { s0 with ciclos_ejecutados := 0 } := by
      simp [inferir, h]
    rw [he]
    constructor
    · intro hlt
      exact hb hlt
    · intro hge
      exact absurd hge h

/-- Witness for C3's amended theorem: the empty knowledge base breaks in
cycle 1; with limit 2 the agenda-empty reason survives, with limit 1 it is
overwritten. -/
theorem C3_testigo :
    (inferir bcVaciaC3 2 estadoCero).razon_terminacion = razonAgendaVacia ∧
    (inferir bcVaciaC3 1 estadoCero).razon_terminacion = razonLimiteCiclos 1 := by
  constructor
  · exact (C3_inferir_razon_terminacion bcVaciaC3 2 estadoCero).1 (by decide)
  · exact (C3_inferir_razon_terminacion bcVaciaC3 1 estadoCero).2 (by decide)

/-- C4 counterexample: `bcFantasmaC4` advertises rule R1 while every id
lookup fails.  In cycle 1 the selected activation is the one at position 0,
whose lookup fails; it is skipped but not marked executed, and at cycle 2's
RESOLVE the selection again returns position 0 with rule id R1 — the very
activation whose lookup failed — so the failed lookup IS retried in a later
cycle. -/
theorem C4_contraejemplo :
    (seleccionar_proxima (faseMatch bcFantasmaC4
        { estadoCero with ciclos_ejecutados := 1 }).agenda).map
      (fun p => (p.1, p.2.regla_id)) = Option.some (0, "R1") ∧
    bcFantasmaC4.obtener_regla_por_id "R1" = Option.none ∧
    (cicloMotor bcFantasmaC4 estadoCero).1.agenda.reglasInstanciadas =
      [activacionFantasmaC4] ∧
    activacionFantasmaC4.ya_ejecutada = false ∧
    (seleccionar_proxima (faseMatch bcFantasmaC4
        { (cicloMotor bcFantasmaC4 estadoCero).1 with
          ciclos_ejecutados := 2 }).agenda).map
      (fun p => (p.1, p.2.regla_id)) = Option.some (0, "R1") := by
  refine ⟨rfl, rfl, rfl, rfl, rfl⟩

/-- C4 (amended): when the selected activation's rule id is absent from the
knowledge base, the ACT phase returns the engine state untouched — no fact
produced, no error raised, the loop continues — but the activation is not
marked executed, so it remains selectable and the failed lookup is retried
in later cycles (until the cycle limit), not skipped once and for all. -/
theorem C4_fase_act_omite_regla_desconocida :
    ∀ (bc : BaseConocimiento) (i : Nat) (ri : ReglaInstanciada) (s : EstadoMotor),
      bc.obtener_regla_por_id ri.regla_id = Option.none →
      faseAct bc i ri s = s := by
  intro bc i ri s h
  unfold faseAct
  rw [h]

/-- Witness for C4's amended theorem at the phantom activation. -/
theorem C4_testigo :
    faseAct bcFantasmaC4 0 activacionFantasmaC4 estadoCero = estadoCero :=
  C4_fase_act_omite_regla_desconocida bcFantasmaC4 0 activacionFantasmaC4
    estadoCero rfl

lemma seleccion_rama {β : Type} [LinearOrder β] (key : ReglaInstanciada → β)
    (l : List ReglaInstanciada) (c : Nat × ReglaInstanciada)
    (cs : List (Nat × ReglaInstanciada)) (i : Nat) (r : ReglaInstanciada)
    (hc : candidatosDesde 0 l = c :: cs)
    (hmax : pyMaxBy (fun p => key p.2) c cs = (i, r)) :
    l.get? i = Option.some r ∧ r.ya_ejecutada = false ∧
    (∀ j rj, l.get? j = Option.some rj → rj.ya_ejecutada = false →
      key rj ≤ key r ∧ (j < i → key rj < key r)) := by
  have hmem : (i, r) ∈ candidatosDesde 0 l := by
    rw [hc]
    rcases pyMaxBy_mem (fun p => key p.2) cs c with h | h
    · rw [hmax] at h
      rw [← h]
      exact List.mem_cons_self _ _
    · rw [hmax] at h
      exact List.mem_cons_of_mem _ h
  obtain ⟨j0, hj0, hget, hya⟩ := (candidatosDesde_mem l 0 i r).mp hmem
  have hgi : l.get? i = Option.some r := by
    rw [hj0, Nat.zero_add]
    exact hget
  refine ⟨hgi, hya, ?_⟩
  intro j rj hjget hjya
  have hjmem : (j, rj) ∈ candidatosDesde 0 l :=
    (candidatosDesde_mem l 0 j rj).mpr ⟨j, by omega, hjget, hjya⟩
  rw [hc] at hjmem
  constructor
  · obtain ⟨hle1, hle2⟩ := pyMaxBy_le (fun p => key p.2) cs c
    rw [hmax] at hle1 hle2
    rcases List.mem_cons.mp hjmem with heqc | hjm
    · rw [← heqc] at hle1
      simpa using hle1
    · simpa using hle2 _ hjm
  · intro hji
    obtain ⟨pre, post, heq, hpre⟩ := pyMaxBy_first (fun p => key p.2) cs c
    rw [hmax] at heq hpre
    have hsorted : (c :: cs).Pairwise (fun p q => p.1 < q.1) := by
      rw [← hc]
      exact candidatosDesde_sorted l 0
    rw [heq] at hsorted hjmem
    rcases List.mem_append.mp hjmem with hin | hin
    · simpa using hpre _ hin
    · rcases List.mem_cons.mp hin with heq2 | hin
      · exfalso
        have hj : j = i := by
          have := congrArg Prod.fst heq2
          simpa using this
        omega
      · exfalso
        obtain ⟨hp1, hp2, hp12⟩ := List.pairwise_append.mp hsorted
        have := (List.pairwise_cons.mp hp2).1 (j, rj) hin
        simp only [] at this
        omega

/-- C5: `seleccionar_proxima_regla` returns `None` exactly when no
unexecuted activation exists; otherwise the selected activation is
unexecuted and maximal under the configured strategy's key (specificity,
activation timestamp, or explicit priority), and among equal maxima the
earliest inserted wins: every unexecuted activation strictly earlier in
insertion order has a strictly smaller key.  As a pure function of the
agenda the selection is deterministic. -/
theorem C5_seleccionar_proxima_regla_spec :
    ∀ (a : Agenda),
      (seleccionar_proxima_regla a = Option.none ↔
        ∀ r ∈ a.reglasInstanciadas, r.ya_ejecutada = true) ∧
      (∀ i r, seleccionar_proxima a = Option.some (i, r) →
        seleccionar_proxima_regla a = Option.some r ∧
        a.reglasInstanciadas.get? i = Option.some r ∧
        r.ya_ejecutada = false ∧
        (∀ j rj, a.reglasInstanciadas.get? j = Option.some rj →
          rj.ya_ejecutada = false →
          claveEstrategia a.estrategia rj ≤ claveEstrategia a.estrategia r ∧
          (j < i → claveEstrategia a.estrategia rj < claveEstrategia a.estrategia r))) := by
  intro a
  constructor
  · cases hc : candidatosDesde 0 a.reglasInstanciadas with
    | nil =>
        constructor
        · intro _
          exact (candidatosDesde_nil_iff _ 0).mp hc
        · intro _
          simp [seleccionar_proxima_regla, seleccionar_proxima, hc]
    | cons c cs =>
        have hcmem : c ∈ candidatosDesde 0 a.reglasInstanciadas := by
          rw [hc]
          exact List.mem_cons_self _ _
        obtain ⟨j0, hj0, hget, hya⟩ :=
          (candidatosDesde_mem _ 0 c.1 c.2).mp (by simpa using hcmem)
        constructor
        · intro hnone
          rw [seleccionar_proxima_regla, seleccionar_proxima, hc] at hnone
          simp at hnone
        · intro hall
          exfalso
          have := hall c.2 (List.get?_mem hget)
          rw [hya] at this
          cases this
  · intro i r hsel
    have hspr : seleccionar_proxima_regla a = Option.some r := by
      rw [seleccionar_proxima_regla, hsel]
      rfl
    rw [seleccionar_proxima] at hsel
    cases hc : candidatosDesde 0 a.reglasInstanciadas with
    | nil =>
        rw [hc] at hsel
        cases hsel
    | cons c cs =>
        rw [hc] at hsel
        cases hstrat : a.estrategia with
        | ESPECIFICIDAD =>
            rw [hstrat] at hsel
            have hmax : pyMaxBy (fun p => p.2.especificidad) c cs = (i, r) := by
              simpa using hsel
            obtain ⟨hget, hya, hkey⟩ :=
              seleccion_rama (fun x => x.especificidad) a.reglasInstanciadas c cs i r hc hmax
            refine ⟨hspr, hget, hya, ?_⟩
            intro j rj hjget hjya
            obtain ⟨hle, hlt⟩ := hkey j rj hjget hjya
            constructor
            · simpa [claveEstrategia, hstrat] using Nat.cast_le.mpr hle
            · intro hj
              simpa [claveEstrategia, hstrat] using Nat.cast_lt.mpr (hlt hj)
        | RECENCIA =>
            rw [hstrat] at hsel
            have hmax : pyMaxBy (fun p => p.2.timestamp_activacion) c cs = (i, r) := by
              simpa using hsel
            obtain ⟨hget, hya, hkey⟩ :=
              seleccion_rama (fun x => x.timestamp_activacion)
                a.reglasInstanciadas c cs i r hc hmax
            refine ⟨hspr, hget, hya, ?_⟩
            intro j rj hjget hjya
            obtain ⟨hle, hlt⟩ := hkey j rj hjget hjya
            constructor
            · simpa [claveEstrategia, hstrat] using Nat.cast_le.mpr hle
            · intro hj
              simpa [claveEstrategia, hstrat] using Nat.cast_lt.mpr (hlt hj)
        | PRIORIDAD_EXPLICITA =>
            rw [hstrat] at hsel
            have hmax : pyMaxBy (fun p => p.2.prioridad_explicita) c cs = (i, r) := by
              simpa using hsel
            obtain ⟨hget, hya, hkey⟩ :=
              seleccion_rama (fun x => x.prioridad_explicita)
                a.reglasInstanciadas c cs i r hc hmax
            refine ⟨hspr, hget, hya, ?_⟩
            intro j rj hjget hjya
            obtain ⟨hle, hlt⟩ := hkey j rj hjget hjya
            constructor
            · simpa [claveEstrategia, hstrat] using hle
            · intro hj
              simpa [claveEstrategia, hstrat] using hlt hj

/-- Witness for C5 at `agendaC5`: the tie between the activations at
positions 0 and 2 (both specificity 3) resolves to position 0, the first
inserted, and the later tied activation's key is bounded by the winner's. -/
theorem C5_testigo :
    seleccionar_proxima_regla agendaC5 =
      Option.some { regla_id := "A", bindings := [], hechos_activadores := [],
                    timestamp_activacion := 0, especificidad := 3 } ∧
    claveEstrategia agendaC5.estrategia
        { regla_id := "C", bindings := [], hechos_activadores := [],
          timestamp_activacion := 2, especificidad := 3 } ≤
      claveEstrategia agendaC5.estrategia
        { regla_id := "A", bindings := [], hechos_activadores := [],
          timestamp_activacion := 0, especificidad := 3 } := by
  have h := (C5_seleccionar_proxima_regla_spec agendaC5).2 0
    { regla_id := "A", bindings := [], hechos_activadores := [],
      timestamp_activacion := 0, especificidad := 3 } rfl
  refine ⟨h.1, ?_⟩
  exact (h.2.2.2 2
    { regla_id := "C", bindings := [], hechos_activadores := [],
      timestamp_activacion := 2, especificidad := 3 } rfl rfl).1
